import Mathlib

/-!
# Shallow embedding of `syncengine` (src/engine.go)

The Go package is a batching-and-retry dispatch engine.  Per-group state
(`itemGroup`) holds an items map, an attempts map and a `lastSent`
timestamp; `Add`/`Ack` mutate it, and two periodic loops
(`dispatchLoop`, `retryLoop`) scan all groups each tick.

Modelling decisions:
* Go maps `map[string]T` are embedded as association lists
  `List (String × T)`; iteration order of a Go map is unspecified, the
  list order stands in for one concrete iteration order.
* `attempts map[string]int` is embedded as a total function
  `String → Nat`: the engine only ever reads it through default-zero
  indexing (`ig.attempts[key]`), so `delete` is observationally the same
  as resetting the key to 0.
* timestamps (`UnixNano`) and durations (`Nanoseconds()`) are `Int`.
* `dispatchLoop` re-reads the clock for `lastSent`
  (`time.Now().UnixNano()`); the embedding uses the tick's `now` for
  both reads, which is the only time abstraction taken.
-/

namespace SyncEngine

/-- The `SyncItem` interface: the engine only uses `Key()`, `Group()` and
(`Timestamp()` is passed through untouched). -/
structure SyncItem where
  key : String
  group : String
  timestamp : Int
deriving DecidableEq, Repr

/-- Pointwise update of an attempts map (`ig.attempts[k] = v`). -/
def upd (a : String → Nat) (k : String) (v : Nat) : String → Nat :=
  fun x => if x = k then v else a x

/-- `itemGroup` from engine.go: items map, attempts map, lastSent. -/
structure ItemGroup where
  items : List (String × SyncItem)
  attempts : String → Nat
  lastSent : Int

/-- The numeric part of `Config` (BatchSize, MaxRetry, FlushAfter,
RetryAfter in nanoseconds).  `Tick`, `OnDispatch`, `Executor`, `Logger`
are modelled separately where a claim needs them. -/
structure Config where
  batchSize : Nat
  maxRetry : Nat
  flushAfterNs : Int
  retryAfterNs : Int
deriving DecidableEq, Repr

/-- Go map read `m[k]` with presence: first binding of `k`. -/
def lookupA {α : Type} : List (String × α) → String → Option α
  | [], _ => none
  | p :: rest, k => if p.1 = k then some p.2 else lookupA rest k

/-- Go map write `m[k] = v`: replace the binding in place, or append. -/
def insertA {α : Type} : List (String × α) → String → α → List (String × α)
  | [], k, v => [(k, v)]
  | p :: rest, k, v => if p.1 = k then (k, v) :: rest else p :: insertA rest k v

/-- Go map `delete(m, k)`. -/
def eraseA {α : Type} (l : List (String × α)) (k : String) : List (String × α) :=
  l.filter (fun p => decide (p.1 ≠ k))

/-- The empty `itemGroup` allocated by `Add`'s `LoadOrStore`. -/
def emptyGroup : ItemGroup :=
  { items := [], attempts := fun _ => 0, lastSent := 0 }

/-- The engine's `cache sync.Map`: group id → itemGroup. -/
abbrev EngineState := List (String × ItemGroup)

/-- `(*SyncEngine).Add`: `LoadOrStore` the group record, then
`ig.items[item.Key()] = item`.  The attempts map and `lastSent` are not
touched. -/
def Add (s : EngineState) (it : SyncItem) : EngineState :=
  let ig := (lookupA s it.group).getD emptyGroup
  insertA s it.group { ig with items := insertA ig.items it.key it }

/-- `(*SyncEngine).Ack`: no-op when the group is unknown, otherwise
delete every key from both `items` and `attempts`. -/
def Ack (s : EngineState) (group : String) (keys : List String) : EngineState :=
  match lookupA s group with
  | none => s
  | some ig =>
      insertA s group
        { ig with
          items := keys.foldl (fun m k => eraseA m k) ig.items
          attempts := keys.foldl (fun a k => upd a k 0) ig.attempts }

/-- `dispatchLoop`'s per-tick `unsent` collection: items whose attempt
count is 0. -/
def unsentOf (ig : ItemGroup) : List SyncItem :=
  (ig.items.filter (fun p => ig.attempts p.1 == 0)).map Prod.snd

/-- One `dispatchLoop` tick restricted to one group record (the body of
the `cache.Range` closure): compute `unsent`, decide `shouldFlush`, cut
`batch = unsent[:min(BatchSize, len(unsent))]`, bump each batch item's
attempt count (`ig.attempts[b.Key()]++`) and set `lastSent`.  Returns
the new record and the batch handed to the executor, if any. -/
def dispatchTickGroup (cfg : Config) (now : Int) (ig : ItemGroup) :
    ItemGroup × Option (List SyncItem) :=
  let unsent := unsentOf ig
  if 0 < unsent.length ∧
      (cfg.batchSize ≤ unsent.length ∨ cfg.flushAfterNs < now - ig.lastSent) then
    let batch := unsent.take (min cfg.batchSize unsent.length)
    ({ ig with
        attempts := batch.foldl (fun a b => upd a b.key (a b.key + 1)) ig.attempts
        lastSent := now },
      some batch)
  else
    (ig, none)

/-- The body of `retryLoop`'s collection loop: for one items-map entry,
if its attempt count is below `MaxRetry`, bump the count and append the
item to `retryable`. -/
def retryStep (m : Nat) (acc : (String → Nat) × List SyncItem) (p : String × SyncItem) :
    (String → Nat) × List SyncItem :=
  if acc.1 p.1 < m then (upd acc.1 p.1 (acc.1 p.1 + 1), acc.2 ++ [p.2]) else acc

/-- One `retryLoop` tick restricted to one group record: skip when the
group has no items, was never dispatched, or `now - lastSent <
RetryAfter`; otherwise collect-and-bump every item below `MaxRetry`, and
when that set is non-empty set `lastSent = now` and hand the whole set
to the executor. -/
def retryTickGroup (cfg : Config) (now : Int) (ig : ItemGroup) :
    ItemGroup × Option (List SyncItem) :=
  if ig.items.length = 0 then (ig, none)
  else if ig.lastSent = 0 then (ig, none)
  else if now - ig.lastSent < cfg.retryAfterNs then (ig, none)
  else
    let r := ig.items.foldl (retryStep cfg.maxRetry) (ig.attempts, [])
    if 0 < r.2.length then
      ({ ig with attempts := r.1, lastSent := now }, some r.2)
    else
      (ig, none)

/-- One full `dispatchLoop` tick: `cache.Range` over every group. -/
def dispatchTick (cfg : Config) (now : Int) (s : EngineState) : EngineState :=
  s.map (fun p => (p.1, (dispatchTickGroup cfg now p.2).1))

/-- One full `retryLoop` tick: `cache.Range` over every group. -/
def retryTick (cfg : Config) (now : Int) (s : EngineState) : EngineState :=
  s.map (fun p => (p.1, (retryTickGroup cfg now p.2).1))

/-- The operations that mutate the engine's state: `Add`, `Ack`, a
dispatch tick, a retry tick. -/
inductive EngineStep (cfg : Config) : EngineState → EngineState → Prop
  | add (s : EngineState) (it : SyncItem) : EngineStep cfg s (Add s it)
  | ack (s : EngineState) (g : String) (keys : List String) :
      EngineStep cfg s (Ack s g keys)
  | dispatch (s : EngineState) (now : Int) : EngineStep cfg s (dispatchTick cfg now s)
  | retry (s : EngineState) (now : Int) : EngineStep cfg s (retryTick cfg now s)

/-- States reachable from a fresh engine (`NewEngine`: empty cache). -/
def Reachable (cfg : Config) (s : EngineState) : Prop :=
  Relation.ReflTransGen (EngineStep cfg) [] s

/-- Well-formedness a Go `map[string]SyncItem` written only through
`ig.items[item.Key()] = item` guarantees: each stored key is its item's
`Key()`, and keys are distinct. -/
def KeysOk (ig : ItemGroup) : Prop :=
  (∀ p ∈ ig.items, (p.2).key = p.1) ∧ (ig.items.map Prod.fst).Nodup

instance decKeysOk (ig : ItemGroup) : Decidable (KeysOk ig) :=
  inferInstanceAs
    (Decidable ((∀ p ∈ ig.items, (p.2).key = p.1) ∧ (ig.items.map Prod.fst).Nodup))

/-! ## Claim-level specifications, task/stop models and sample values -/

/-- The set the retry loop collects: items whose attempt count is below
`MaxRetry` (as key/item pairs of the items map). -/
def retryablesOf (cfg : Config) (ig : ItemGroup) : List (String × SyncItem) :=
  ig.items.filter (fun p => decide (ig.attempts p.1 < cfg.maxRetry))

/-- What one dispatch tick does to a group whose batch is cut: the batch
handed out is the `min(BatchSize, len(unsent))`-prefix of `unsent`,
every batch item had attempt count 0, each batch key is marked 1, every
other key keeps its attempt count, and the unsent remainder stays 0. -/
def DispatchBatchSpec (cfg : Config) (now : Int) (ig : ItemGroup) : Prop :=
  (dispatchTickGroup cfg now ig).2
      = some ((unsentOf ig).take (min cfg.batchSize (unsentOf ig).length))
  ∧ ((unsentOf ig).take (min cfg.batchSize (unsentOf ig).length)).length = cfg.batchSize
  ∧ (∀ it ∈ (unsentOf ig).take (min cfg.batchSize (unsentOf ig).length),
      ig.attempts it.key = 0)
  ∧ (∀ k, k ∈ ((unsentOf ig).take (min cfg.batchSize (unsentOf ig).length)).map SyncItem.key
      → (dispatchTickGroup cfg now ig).1.attempts k = 1)
  ∧ (∀ k, k ∉ ((unsentOf ig).take (min cfg.batchSize (unsentOf ig).length)).map SyncItem.key
      → (dispatchTickGroup cfg now ig).1.attempts k = ig.attempts k)
  ∧ (∀ it ∈ (unsentOf ig).drop (min cfg.batchSize (unsentOf ig).length),
      (dispatchTickGroup cfg now ig).1.attempts it.key = 0)

def itemA : SyncItem := { key := "a", group := "g", timestamp := 0 }
def itemB : SyncItem := { key := "b", group := "g", timestamp := 0 }
def itemC : SyncItem := { key := "c", group := "g", timestamp := 0 }

/-- BatchSize 2, MaxRetry 3, FlushAfter 0ns, RetryAfter 10ns. -/
def cfgA : Config := { batchSize := 2, maxRetry := 3, flushAfterNs := 0, retryAfterNs := 10 }

/-- Three unsent items in one group, never dispatched. -/
def igA : ItemGroup :=
  { items := [("a", itemA), ("b", itemB), ("c", itemC)]
    attempts := fun _ => 0
    lastSent := 0 }

/-- BatchSize 5, MaxRetry 3, FlushAfter 0ns, RetryAfter 10ns. -/
def cfgBig : Config := { batchSize := 5, maxRetry := 3, flushAfterNs := 0, retryAfterNs := 10 }

/-- One unsent item in one group, never dispatched. -/
def igOne : ItemGroup := { items := [("a", itemA)], attempts := fun _ => 0, lastSent := 0 }

/-- The behaviour one retry tick has on one group record: the record is
skipped exactly when it has no items, was never dispatched, or
`now - lastSent < RetryAfter` (strict); otherwise the retryable set
(attempt count < MaxRetry) is collected, each of its attempt counts is
bumped by one, and when it is non-empty `lastSent` becomes `now` and the
whole set — with no BatchSize cap — is the dispatched batch. -/
def RetryTickSpec (cfg : Config) (now : Int) (ig : ItemGroup) : Prop :=
  (ig.items = [] ∨ ig.lastSent = 0 ∨ now - ig.lastSent < cfg.retryAfterNs →
      retryTickGroup cfg now ig = (ig, none))
  ∧ (ig.items ≠ [] → ig.lastSent ≠ 0 → cfg.retryAfterNs ≤ now - ig.lastSent →
      (retryablesOf cfg ig = [] → retryTickGroup cfg now ig = (ig, none))
      ∧ (retryablesOf cfg ig ≠ [] →
          (retryTickGroup cfg now ig).2 = some ((retryablesOf cfg ig).map Prod.snd)
          ∧ (retryTickGroup cfg now ig).1.items = ig.items
          ∧ (retryTickGroup cfg now ig).1.lastSent = now
          ∧ ∀ k, (retryTickGroup cfg now ig).1.attempts k =
              if k ∈ (retryablesOf cfg ig).map Prod.fst
              then ig.attempts k + 1 else ig.attempts k))

/-- BatchSize 1, MaxRetry 1, FlushAfter 0ns, RetryAfter 10ns. -/
def cfgR : Config := { batchSize := 1, maxRetry := 1, flushAfterNs := 0, retryAfterNs := 10 }

/-- One item, attempt count 0, last dispatched at t = 5ns. -/
def igR : ItemGroup := { items := [("a", itemA)], attempts := fun _ => 0, lastSent := 5 }

/-- BatchSize 1, MaxRetry 2, FlushAfter 0ns, RetryAfter 10ns. -/
def cfgN : Config := { batchSize := 1, maxRetry := 2, flushAfterNs := 0, retryAfterNs := 10 }

/-- One already-dispatched item ("b", 1 attempt) and one never-dispatched
item ("a", 0 attempts), last dispatched at t = 5ns. -/
def igN : ItemGroup :=
  { items := [("a", itemA), ("b", itemB)]
    attempts := fun k => if k = "b" then 1 else 0
    lastSent := 5 }

/-- What C7 asserts: after `Add`, the item's group record holds the new
item under its key; the attempts map, `lastSent`, every other key, and
every other group are untouched. -/
def AddOverwriteSpec (s : EngineState) (it : SyncItem) (ig : ItemGroup) : Prop :=
  ∃ ig', lookupA (Add s it) it.group = some ig'
    ∧ ig'.attempts = ig.attempts
    ∧ ig'.lastSent = ig.lastSent
    ∧ lookupA ig'.items it.key = some it
    ∧ (∀ k, k ≠ it.key → lookupA ig'.items k = lookupA ig.items k)
    ∧ (∀ g, g ≠ it.group → lookupA (Add s it) g = lookupA s g)

/-- The same item key with a different payload (timestamp 7). -/
def itemA2 : SyncItem := { key := "a", group := "g", timestamp := 7 }

/-- A state holding group "g" with the single item ("a", itemA). -/
def sG : EngineState := Add [] itemA

/-- The group record `sG` stores under "g". -/
def igG : ItemGroup := { items := [("a", itemA)], attempts := fun _ => 0, lastSent := 0 }

/-- The invariant each group record keeps: well-formed keys and every
attempt count at most `max 1 MaxRetry`. -/
def GoodGroup (m : Nat) (ig : ItemGroup) : Prop :=
  KeysOk ig ∧ ∀ k, ig.attempts k ≤ max 1 m

/-- Every record of the state keeps the group invariant. -/
def GoodState (cfg : Config) (s : EngineState) : Prop :=
  ∀ p ∈ s, GoodGroup cfg.maxRetry p.2

/-- The amended C3 property of a state: (1) every stored attempt count
is at most `max 1 MaxRetry`; (2) across any next engine operation, the
attempt count of a key present before and after never decreases; (3) a
retry batch only ever selects items whose attempt count is still below
`MaxRetry`. -/
def AttemptsInvariant (cfg : Config) (s : EngineState) : Prop :=
  (∀ p ∈ s, ∀ k, p.2.attempts k ≤ max 1 cfg.maxRetry)
  ∧ (∀ s', EngineStep cfg s s' → ∀ g ig ig' k,
      lookupA s g = some ig → lookupA s' g = some ig' →
      k ∈ ig.items.map Prod.fst → k ∈ ig'.items.map Prod.fst →
      ig.attempts k ≤ ig'.attempts k)
  ∧ (∀ p ∈ s, ∀ now batch, (retryTickGroup cfg now p.2).2 = some batch →
      ∀ it ∈ batch, p.2.attempts it.key < cfg.maxRetry)

/-- BatchSize 1, MaxRetry 0, FlushAfter 0ns, RetryAfter 0ns. -/
def cfgZ : Config := { batchSize := 1, maxRetry := 0, flushAfterNs := 0, retryAfterNs := 0 }

/-- Calling the configured logger: a nil `Config.Logger` (it is
documented Optional) panics when invoked; a present logger returns. -/
def callLogger : Option Unit → Except String Unit
  | none => Except.error "nil logger call"
  | some _ => Except.ok ()

/-- Calling `OnDispatch`: `none` models a nil callback (invoking it
panics); `some true` a callback that itself panics; `some false` a
callback that returns normally. -/
def callDispatch : Option Bool → Except String Unit
  | none => Except.error "nil OnDispatch call"
  | some true => Except.error "callback panic"
  | some false => Except.ok ()

/-- The body of the submitted closure: log "start dispatch...", then
invoke the dispatch callback. -/
def taskBody (logger : Option Unit) (cb : Option Bool) : Except String Unit := do
  callLogger logger
  callDispatch cb

/-- The whole submitted task including its deferred `recover` handler: a
panic in the body is recovered and then logged through `e.cfg.Logger`;
if that logging call itself panics (nil logger) the panic escapes the
task boundary. -/
def runSubmittedTask (logger : Option Unit) (cb : Option Bool) : Except String Unit :=
  match taskBody logger cb with
  | Except.ok _ => Except.ok ()
  | Except.error _ =>
      match callLogger logger with
      | Except.ok _ => Except.ok ()
      | Except.error e => Except.error e

/-- Go channel-close semantics for the engine's `stop` channel: `close`
on an already-closed channel panics (modelled as `Except.error`);
otherwise the channel becomes closed. -/
def closeChan (closed : Bool) : Except String Bool :=
  if closed then Except.error "close of closed channel" else Except.ok true

/-- The `stop` channel state of a `SyncEngine`. -/
structure EngineCtl where
  stopClosed : Bool
deriving DecidableEq, Repr

/-- `NewEngine` allocates the stop channel open. -/
def NewEngineCtl : EngineCtl := { stopClosed := false }

/-- `(*SyncEngine).Stop()`: `close(e.stop)`. -/
def Stop (e : EngineCtl) : Except String EngineCtl :=
  (closeChan e.stopClosed).map (fun _ => { stopClosed := true })

/-! ## Association-list lemmas -/

theorem lookupA_insertA_self {α : Type} (l : List (String × α)) (k : String) (v : α) :
    lookupA (insertA l k v) k = some v := by
  induction l with
  | nil => simp [insertA, lookupA]
  | cons p rest ih =>
      by_cases h : p.1 = k
      · simp [insertA, h, lookupA]
      · simp [insertA, h, lookupA, ih]

theorem lookupA_insertA_ne {α : Type} (l : List (String × α)) (k k' : String) (v : α)
    (h : k' ≠ k) : lookupA (insertA l k v) k' = lookupA l k' := by
  have h' : k ≠ k' := Ne.symm h
  induction l with
  | nil => simp [insertA, lookupA, h']
  | cons p rest ih =>
      by_cases hp : p.1 = k
      · subst hp
        simp [insertA, lookupA, h']
      · simp [insertA, hp, lookupA, ih]

theorem insertA_insertA {α : Type} (l : List (String × α)) (k : String) (v w : α) :
    insertA (insertA l k v) k w = insertA l k w := by
  induction l with
  | nil => simp [insertA]
  | cons p rest ih =>
      by_cases h : p.1 = k
      · simp [insertA, h]
      · simp [insertA, h, ih]

theorem mem_insertA {α : Type} (l : List (String × α)) (k : String) (v : α) :
    ∀ p ∈ insertA l k v, p = (k, v) ∨ p ∈ l := by
  induction l with
  | nil => simp [insertA]
  | cons q rest ih =>
      intro p hp
      by_cases h : q.1 = k
      · simp only [insertA, h, if_pos rfl] at hp
        rcases List.mem_cons.mp hp with h1 | h1
        · exact Or.inl h1
        · exact Or.inr (List.mem_cons_of_mem _ h1)
      · simp only [insertA, h, if_neg h] at hp
        rcases List.mem_cons.mp hp with h1 | h1
        · exact Or.inr (List.mem_cons.mpr (Or.inl h1))
        · rcases ih p h1 with h2 | h2
          · exact Or.inl h2
          · exact Or.inr (List.mem_cons_of_mem _ h2)

theorem mem_keys_insertA {α : Type} (l : List (String × α)) (k : String) (v : α)
    (x : String) : x ∈ (insertA l k v).map Prod.fst ↔ x = k ∨ x ∈ l.map Prod.fst := by
  induction l with
  | nil => simp [insertA]
  | cons p rest ih =>
      by_cases h : p.1 = k
      · subst h
        simp [insertA]
      · simp only [insertA, if_neg h, List.map_cons, List.mem_cons, ih]
        tauto

theorem nodup_keys_insertA {α : Type} (l : List (String × α)) (k : String) (v : α)
    (h : (l.map Prod.fst).Nodup) : ((insertA l k v).map Prod.fst).Nodup := by
  induction l with
  | nil => simp [insertA]
  | cons p rest ih =>
      simp only [List.map_cons, List.nodup_cons] at h
      by_cases hp : p.1 = k
      · subst hp
        simpa [insertA] using h
      · simp only [insertA, if_neg hp, List.map_cons, List.nodup_cons]
        refine ⟨fun hmem => ?_, ih h.2⟩
        rcases (mem_keys_insertA rest k v p.1).mp hmem with h1 | h1
        · exact hp h1
        · exact h.1 h1

theorem lookupA_map {α β : Type} (f : α → β) (l : List (String × α)) (g : String) :
    lookupA (l.map (fun p => (p.1, f p.2))) g = (lookupA l g).map f := by
  induction l with
  | nil => simp [lookupA]
  | cons p rest ih =>
      by_cases h : p.1 = g
      · simp [lookupA, h]
      · simp [lookupA, h, ih]

/-! ## Fold lemmas for Ack's delete loops -/

theorem eraseFold_eq_filter {α : Type} (keys : List String) :
    ∀ l : List (String × α),
      keys.foldl (fun m k => eraseA m k) l = l.filter (fun p => decide (p.1 ∉ keys)) := by
  induction keys with
  | nil => intro l; simp
  | cons k ks ih =>
      intro l
      simp only [List.foldl_cons]
      rw [ih (eraseA l k)]
      unfold eraseA
      rw [List.filter_filter]
      apply List.filter_congr
      intro p _
      by_cases h1 : p.1 = k <;> by_cases h2 : p.1 ∈ ks <;> simp [h1, h2]

theorem zeroFold_apply (keys : List String) :
    ∀ (a : String → Nat) (x : String),
      (keys.foldl (fun a k => upd a k 0) a) x = if x ∈ keys then 0 else a x := by
  induction keys with
  | nil => intro a x; simp
  | cons k ks ih =>
      intro a x
      simp only [List.foldl_cons, ih]
      by_cases hks : x ∈ ks
      · simp [hks]
      · by_cases hk : x = k <;> simp [upd, hks, hk]

/-! ## Fold lemmas for the dispatch-loop attempt bump -/

theorem bumpFold_apply (batch : List SyncItem) :
    ∀ (a : String → Nat) (x : String),
      (batch.foldl (fun a b => upd a b.key (a b.key + 1)) a) x
        = a x + (batch.map SyncItem.key).count x := by
  induction batch with
  | nil => intro a x; simp
  | cons b rest ih =>
      intro a x
      simp only [List.foldl_cons, ih, List.map_cons, List.count_cons]
      by_cases h : x = b.key
      · subst h
        simp [upd, Nat.add_comm, Nat.add_assoc]
      · simp [upd, h, Ne.symm h]

/-! ## Retry-loop fold lemmas -/

theorem retryFold_eq (m : Nat) (l : List (String × SyncItem)) :
    ∀ (a : String → Nat) (acc : List SyncItem),
      (l.map Prod.fst).Nodup →
      (l.foldl (retryStep m) (a, acc)).2
          = acc ++ (l.filter (fun p => decide (a p.1 < m))).map Prod.snd
      ∧ ∀ k, (l.foldl (retryStep m) (a, acc)).1 k
          = if k ∈ (l.filter (fun p => decide (a p.1 < m))).map Prod.fst
            then a k + 1 else a k := by
  induction l with
  | nil => intro a acc _; simp
  | cons p rest ih =>
      intro a acc hnd
      simp only [List.map_cons, List.nodup_cons] at hnd
      obtain ⟨hpk, hnd'⟩ := hnd
      by_cases hlt : a p.1 < m
      · have hstep : retryStep m (a, acc) p = (upd a p.1 (a p.1 + 1), acc ++ [p.2]) := by
          simp [retryStep, hlt]
        have hagree : rest.filter (fun q => decide ((upd a p.1 (a p.1 + 1)) q.1 < m))
            = rest.filter (fun q => decide (a q.1 < m)) := by
          apply List.filter_congr
          intro q hq
          have hne : q.1 ≠ p.1 := by
            intro hcontra
            exact hpk (hcontra ▸ List.mem_map_of_mem Prod.fst hq)
          simp [upd, hne]
        obtain ⟨ih2, ih1⟩ := ih (upd a p.1 (a p.1 + 1)) (acc ++ [p.2]) hnd'
        rw [hagree] at ih2 ih1
        have hfc : (p :: rest).filter (fun q => decide (a q.1 < m))
            = p :: rest.filter (fun q => decide (a q.1 < m)) := by
          simp [List.filter_cons, hlt]
        constructor
        · rw [List.foldl_cons, hstep, ih2, hfc]
          simp
        · intro k
          rw [List.foldl_cons, hstep, ih1 k, hfc, List.map_cons]
          by_cases hk : k = p.1
          · have hnot : k ∉ (rest.filter (fun q => decide (a q.1 < m))).map Prod.fst := by
              intro hmem
              exact hpk (((List.filter_sublist rest).map Prod.fst).subset (hk ▸ hmem))
            rw [if_neg hnot, hk, if_pos (List.mem_cons_self _ _)]
            simp [upd]
          · have hupd : upd a p.1 (a p.1 + 1) k = a k := by simp [upd, hk]
            rw [hupd]
            by_cases hmem : k ∈ (rest.filter (fun q => decide (a q.1 < m))).map Prod.fst
            · rw [if_pos hmem, if_pos (List.mem_cons_of_mem _ hmem)]
            · have hnc : k ∉ p.1 :: (rest.filter (fun q => decide (a q.1 < m))).map Prod.fst := by
                intro hc
                rcases List.mem_cons.mp hc with h1 | h1
                · exact hk h1
                · exact hmem h1
              rw [if_neg hmem, if_neg hnc]
      · have hstep : retryStep m (a, acc) p = (a, acc) := by
          simp [retryStep, hlt]
        obtain ⟨ih2, ih1⟩ := ih a acc hnd'
        have hfc : (p :: rest).filter (fun q => decide (a q.1 < m))
            = rest.filter (fun q => decide (a q.1 < m)) := by
          simp [List.filter_cons, hlt]
        constructor
        · rw [List.foldl_cons, hstep, ih2, hfc]
        · intro k
          rw [List.foldl_cons, hstep, ih1 k, hfc]

theorem retryFold_mono (m : Nat) (l : List (String × SyncItem)) :
    ∀ (a : String → Nat) (acc : List SyncItem) (k : String),
      a k ≤ (l.foldl (retryStep m) (a, acc)).1 k := by
  induction l with
  | nil => intro a acc k; simp
  | cons p rest ih =>
      intro a acc k
      simp only [List.foldl_cons]
      by_cases hlt : a p.1 < m
      · rw [show retryStep m (a, acc) p = (upd a p.1 (a p.1 + 1), acc ++ [p.2]) from by
          simp [retryStep, hlt]]
        refine le_trans ?_ (ih (upd a p.1 (a p.1 + 1)) (acc ++ [p.2]) k)
        by_cases hk : k = p.1 <;> simp [upd, hk]
      · rw [show retryStep m (a, acc) p = (a, acc) from by simp [retryStep, hlt]]
        exact ih a acc k

theorem retryFold_bound (m : Nat) (l : List (String × SyncItem)) :
    ∀ (a : String → Nat) (acc : List SyncItem),
      (∀ k, a k ≤ max 1 m) → ∀ k, (l.foldl (retryStep m) (a, acc)).1 k ≤ max 1 m := by
  induction l with
  | nil => intro a acc h k; simpa using h k
  | cons p rest ih =>
      intro a acc h k
      simp only [List.foldl_cons]
      by_cases hlt : a p.1 < m
      · rw [show retryStep m (a, acc) p = (upd a p.1 (a p.1 + 1), acc ++ [p.2]) from by
          simp [retryStep, hlt]]
        apply ih
        intro x
        by_cases hx : x = p.1
        · subst hx
          have hx1 : upd a p.1 (a p.1 + 1) p.1 = a p.1 + 1 := by simp [upd]
          rw [hx1]
          omega
        · simpa [upd, hx] using h x
      · rw [show retryStep m (a, acc) p = (a, acc) from by simp [retryStep, hlt]]
        exact ih a acc h k

/-! ## Unsent-set lemmas -/

theorem attempts_zero_of_mem_unsent (ig : ItemGroup)
    (hok : ∀ p ∈ ig.items, (p.2).key = p.1) :
    ∀ it ∈ unsentOf ig, ig.attempts it.key = 0 := by
  intro it hit
  unfold unsentOf at hit
  obtain ⟨p, hp, rfl⟩ := List.mem_map.mp hit
  have hf := List.mem_filter.mp hp
  rw [hok p hf.1]
  simpa using hf.2

theorem unsent_keys_eq (ig : ItemGroup) (hok : ∀ p ∈ ig.items, (p.2).key = p.1) :
    (unsentOf ig).map SyncItem.key
      = (ig.items.filter (fun p => ig.attempts p.1 == 0)).map Prod.fst := by
  unfold unsentOf
  rw [List.map_map]
  apply List.map_congr_left
  intro p hp
  exact hok p (List.mem_filter.mp hp).1

theorem unsent_keys_nodup (ig : ItemGroup) (hok : KeysOk ig) :
    ((unsentOf ig).map SyncItem.key).Nodup := by
  rw [unsent_keys_eq ig hok.1]
  exact List.Nodup.sublist (List.Sublist.map Prod.fst (List.filter_sublist _)) hok.2

/-! ## Dispatch-tick characterization -/

/-- C1: at a dispatch tick, a group with `len(unsent) >= BatchSize` has
exactly `BatchSize` unsent items dispatched (no item with attempt count
> 0 among them); exactly those items' attempt counts become 1 and the
remaining unsent items keep attempt count 0 for a later tick. -/
theorem dispatch_full_batch (cfg : Config) (now : Int) (ig : ItemGroup)
    (hok : KeysOk ig) (hbs : 0 < cfg.batchSize)
    (hlen : cfg.batchSize ≤ (unsentOf ig).length) :
    DispatchBatchSpec cfg now ig := by
  have hpos : 0 < (unsentOf ig).length := lt_of_lt_of_le hbs hlen
  have hcond : 0 < (unsentOf ig).length ∧
      (cfg.batchSize ≤ (unsentOf ig).length ∨ cfg.flushAfterNs < now - ig.lastSent) :=
    ⟨hpos, Or.inl hlen⟩
  have hres : dispatchTickGroup cfg now ig
      = ({ ig with
            attempts := ((unsentOf ig).take (min cfg.batchSize (unsentOf ig).length)).foldl
              (fun a b => upd a b.key (a b.key + 1)) ig.attempts
            lastSent := now },
          some ((unsentOf ig).take (min cfg.batchSize (unsentOf ig).length))) := by
    simp only [dispatchTickGroup]
    rw [if_pos hcond]
  have hzero : ∀ it ∈ (unsentOf ig).take (min cfg.batchSize (unsentOf ig).length),
      ig.attempts it.key = 0 := fun it hit =>
    attempts_zero_of_mem_unsent ig hok.1 it (List.take_subset _ _ hit)
  have hknd : (((unsentOf ig).take (min cfg.batchSize (unsentOf ig).length)).map
      SyncItem.key).Nodup := by
    rw [List.map_take]
    exact List.Nodup.sublist (List.take_sublist _ _) (unsent_keys_nodup ig hok)
  refine ⟨?_, ?_, hzero, ?_, ?_, ?_⟩
  · rw [hres]
  · rw [List.length_take]
    omega
  · intro k hk
    rw [hres]
    simp only
    rw [bumpFold_apply]
    obtain ⟨it, hit, rfl⟩ := List.mem_map.mp hk
    rw [hzero it hit, List.count_eq_one_of_mem hknd hk]
  · intro k hk
    rw [hres]
    simp only
    rw [bumpFold_apply, List.count_eq_zero_of_not_mem hk, Nat.add_zero]
  · intro it hit
    have hdm : it.key ∈ List.drop (min cfg.batchSize (unsentOf ig).length)
        ((unsentOf ig).map SyncItem.key) := by
      rw [← List.map_drop]
      exact List.mem_map_of_mem SyncItem.key hit
    have hnd := unsent_keys_nodup ig hok
    rw [← List.take_append_drop (min cfg.batchSize (unsentOf ig).length)
      ((unsentOf ig).map SyncItem.key)] at hnd
    have hdisj := (List.nodup_append.mp hnd).2.2
    have hnotin : it.key ∉ ((unsentOf ig).take
        (min cfg.batchSize (unsentOf ig).length)).map SyncItem.key := by
      rw [List.map_take]
      intro hc
      exact hdisj hc hdm
    rw [hres]
    simp only
    rw [bumpFold_apply, List.count_eq_zero_of_not_mem hnotin, Nat.add_zero]
    exact attempts_zero_of_mem_unsent ig hok.1 it (List.drop_subset _ _ hit)

/-- C8: a group that was never dispatched (`lastSent == 0`) and has at
least one unsent item flushes at the next tick, whatever the relation of
`len(unsent)` to `BatchSize`; the hypothesis `FlushAfter < now` models
that a real `UnixNano` clock reading exceeds any configured duration. -/
theorem flush_never_dispatched (cfg : Config) (now : Int) (ig : ItemGroup)
    (h0 : ig.lastSent = 0) (hne : 0 < (unsentOf ig).length)
    (hclock : cfg.flushAfterNs < now) :
    (dispatchTickGroup cfg now ig).2
        = some ((unsentOf ig).take (min cfg.batchSize (unsentOf ig).length))
    ∧ (dispatchTickGroup cfg now ig).1.lastSent = now := by
  have hcond : 0 < (unsentOf ig).length ∧
      (cfg.batchSize ≤ (unsentOf ig).length ∨ cfg.flushAfterNs < now - ig.lastSent) := by
    refine ⟨hne, Or.inr ?_⟩
    rw [h0, sub_zero]
    exact hclock
  simp only [dispatchTickGroup]
  rw [if_pos hcond]
  exact ⟨rfl, rfl⟩

/-- Witness for C1: three unsent items, BatchSize 2. -/
theorem dispatch_full_batch_witness : DispatchBatchSpec cfgA 5 igA :=
  dispatch_full_batch cfgA 5 igA (by decide) (by decide) (by decide)

/-- Witness for C8: a single unsent item, far below BatchSize 5, still
flushes because the group was never dispatched. -/
theorem flush_never_dispatched_witness :
    (dispatchTickGroup cfgBig 1 igOne).2
        = some ((unsentOf igOne).take (min cfgBig.batchSize (unsentOf igOne).length))
    ∧ (dispatchTickGroup cfgBig 1 igOne).1.lastSent = 1 :=
  flush_never_dispatched cfgBig 1 igOne (by decide) (by decide) (by decide)

/-! ## Retry-tick characterization -/

theorem retryTickGroup_skip (cfg : Config) (now : Int) (ig : ItemGroup)
    (h : ig.items = [] ∨ ig.lastSent = 0 ∨ now - ig.lastSent < cfg.retryAfterNs) :
    retryTickGroup cfg now ig = (ig, none) := by
  rcases h with h | h | h
  · simp [retryTickGroup, h]
  · by_cases hi : ig.items.length = 0
    · simp [retryTickGroup, hi]
    · simp [retryTickGroup, hi, h]
  · by_cases hi : ig.items.length = 0
    · simp [retryTickGroup, hi]
    · by_cases hl : ig.lastSent = 0
      · simp [retryTickGroup, hi, hl]
      · simp [retryTickGroup, hi, hl, h]

theorem retryTickGroup_run (cfg : Config) (now : Int) (ig : ItemGroup)
    (hnd : (ig.items.map Prod.fst).Nodup)
    (h1 : ig.items ≠ []) (h2 : ig.lastSent ≠ 0)
    (h3 : cfg.retryAfterNs ≤ now - ig.lastSent) :
    (retryablesOf cfg ig = [] → retryTickGroup cfg now ig = (ig, none))
    ∧ (retryablesOf cfg ig ≠ [] →
        (retryTickGroup cfg now ig).2 = some ((retryablesOf cfg ig).map Prod.snd)
        ∧ (retryTickGroup cfg now ig).1.items = ig.items
        ∧ (retryTickGroup cfg now ig).1.lastSent = now
        ∧ ∀ k, (retryTickGroup cfg now ig).1.attempts k =
            if k ∈ (retryablesOf cfg ig).map Prod.fst
            then ig.attempts k + 1 else ig.attempts k) := by
  have hi : ¬ ig.items.length = 0 := by
    simpa [List.length_eq_zero] using h1
  have h3' : ¬ (now - ig.lastSent < cfg.retryAfterNs) := not_lt.mpr h3
  obtain ⟨hfold2, hfold1⟩ :=
    retryFold_eq cfg.maxRetry ig.items ig.attempts [] hnd
  have hfold2' : (ig.items.foldl (retryStep cfg.maxRetry) (ig.attempts, [])).2
      = (retryablesOf cfg ig).map Prod.snd := by
    rw [hfold2, List.nil_append, retryablesOf]
  have hred : retryTickGroup cfg now ig =
      (if 0 < (ig.items.foldl (retryStep cfg.maxRetry) (ig.attempts, [])).2.length
       then ({ ig with
                attempts := (ig.items.foldl (retryStep cfg.maxRetry) (ig.attempts, [])).1
                lastSent := now },
              some (ig.items.foldl (retryStep cfg.maxRetry) (ig.attempts, [])).2)
       else (ig, none)) := by
    simp only [retryTickGroup, if_neg hi, if_neg h2, if_neg h3']
  constructor
  · intro hre
    have hlen : ¬ 0 < (ig.items.foldl (retryStep cfg.maxRetry) (ig.attempts, [])).2.length := by
      rw [hfold2', hre]
      simp
    rw [hred, if_neg hlen]
  · intro hre
    have hlen : 0 < (ig.items.foldl (retryStep cfg.maxRetry) (ig.attempts, [])).2.length := by
      rw [hfold2', List.length_map]
      exact List.length_pos.mpr hre
    rw [hred, if_pos hlen]
    refine ⟨congrArg some hfold2', rfl, rfl, ?_⟩
    intro k
    exact hfold1 k

/-- C2 (amended): at a retry tick a group record is skipped exactly when
it has no items, or was never dispatched, or `now - lastSent` has not
*reached* `RetryAfter` (the code uses strict `<`; at exactly `RetryAfter`
the group IS retried); otherwise every item with attempt count below
`MaxRetry` is bumped by one and, when that set is non-empty, `lastSent`
is set to `now` and the whole set is dispatched uncapped. -/
theorem retry_tick_spec (cfg : Config) (now : Int) (ig : ItemGroup)
    (hnd : (ig.items.map Prod.fst).Nodup) : RetryTickSpec cfg now ig :=
  ⟨retryTickGroup_skip cfg now ig,
   fun h1 h2 h3 => retryTickGroup_run cfg now ig hnd h1 h2 h3⟩

/-- C2 counterexample: at `now = 15` the elapsed time equals `RetryAfter`
exactly (it has not *exceeded* it), yet the record is not skipped: the
item's attempt count is bumped to 1 and `lastSent` is reset. -/
theorem retry_boundary_not_skipped :
    (15 : Int) - igR.lastSent = cfgR.retryAfterNs
    ∧ igR.attempts "a" = 0
    ∧ (retryTickGroup cfgR 15 igR).1.attempts "a" = 1
    ∧ (retryTickGroup cfgR 15 igR).1.lastSent = 15 := by
  decide

/-- Witness for C2's amended theorem at a concrete group. -/
theorem retry_tick_spec_witness : RetryTickSpec cfgR 15 igR :=
  retry_tick_spec cfgR 15 igR (by decide)

/-- C9: when a group is eligible for retry and `MaxRetry ≥ 1`, every
item with attempt count 0 is part of the retry batch (its first
dispatch happens through the retry loop, 0 → 1), and the batch is the
full retryable set, not capped by BatchSize. -/
theorem retry_includes_unsent (cfg : Config) (now : Int) (ig : ItemGroup)
    (hok : KeysOk ig) (h1 : ig.items ≠ []) (h2 : ig.lastSent ≠ 0)
    (h3 : cfg.retryAfterNs ≤ now - ig.lastSent) (hm : 1 ≤ cfg.maxRetry)
    (k : String) (it : SyncItem) (hmem : (k, it) ∈ ig.items)
    (h0 : ig.attempts k = 0) :
    (retryTickGroup cfg now ig).2 = some ((retryablesOf cfg ig).map Prod.snd)
    ∧ it ∈ (retryablesOf cfg ig).map Prod.snd
    ∧ (retryTickGroup cfg now ig).1.attempts k = 1 := by
  have hmemr : (k, it) ∈ retryablesOf cfg ig := by
    apply List.mem_filter.mpr
    refine ⟨hmem, ?_⟩
    simp only [h0, decide_eq_true_eq]
    omega
  have hne : retryablesOf cfg ig ≠ [] := by
    intro hc
    rw [hc] at hmemr
    exact List.not_mem_nil _ hmemr
  obtain ⟨hsome, _hitems, _hlast, hatt⟩ :=
    (retryTickGroup_run cfg now ig hok.2 h1 h2 h3).2 hne
  have hkmem : k ∈ (retryablesOf cfg ig).map Prod.fst :=
    List.mem_map.mpr ⟨(k, it), hmemr, rfl⟩
  refine ⟨hsome, List.mem_map.mpr ⟨(k, it), hmemr, rfl⟩, ?_⟩
  rw [hatt k, if_pos hkmem, h0]

/-- Witness for C9: the 0-attempt item "a" rides along in a retry batch
of size 2 even though BatchSize is 1. -/
theorem retry_includes_unsent_witness :
    (retryTickGroup cfgN 20 igN).2 = some ((retryablesOf cfgN igN).map Prod.snd)
    ∧ itemA ∈ (retryablesOf cfgN igN).map Prod.snd
    ∧ (retryTickGroup cfgN 20 igN).1.attempts "a" = 1 :=
  retry_includes_unsent cfgN 20 igN (by decide) (by decide) (by decide) (by decide)
    (by decide) "a" itemA (by decide) (by decide)

/-! ## Ack idempotence (C6) -/

theorem eraseFold_idem {α : Type} (keys : List String) (l : List (String × α)) :
    keys.foldl (fun m k => eraseA m k) (keys.foldl (fun m k => eraseA m k) l)
      = keys.foldl (fun m k => eraseA m k) l := by
  rw [eraseFold_eq_filter, eraseFold_eq_filter, List.filter_filter]
  apply List.filter_congr
  intro p _
  simp [Bool.and_self]

theorem zeroFold_idem (keys : List String) (a : String → Nat) :
    keys.foldl (fun a k => upd a k 0) (keys.foldl (fun a k => upd a k 0) a)
      = keys.foldl (fun a k => upd a k 0) a := by
  funext x
  rw [zeroFold_apply, zeroFold_apply]
  by_cases h : x ∈ keys <;> simp [h]

theorem Ack_unknown (s : EngineState) (g : String) (keys : List String)
    (hl : lookupA s g = none) : Ack s g keys = s := by
  simp [Ack, hl]

theorem Ack_known (s : EngineState) (g : String) (keys : List String) (ig : ItemGroup)
    (hl : lookupA s g = some ig) :
    Ack s g keys = insertA s g
      { ig with
        items := keys.foldl (fun m k => eraseA m k) ig.items
        attempts := keys.foldl (fun a k => upd a k 0) ig.attempts } := by
  simp [Ack, hl]

/-- C6: `Ack` is idempotent — a second identical `Ack` is a no-op — and
`Ack` on an unknown group leaves the state untouched. -/
theorem ack_idempotent (s : EngineState) (g : String) (keys : List String) :
    Ack (Ack s g keys) g keys = Ack s g keys
    ∧ (lookupA s g = none → Ack s g keys = s) := by
  constructor
  · cases hl : lookupA s g with
    | none =>
        have ha := Ack_unknown s g keys hl
        rw [ha]
        exact ha
    | some ig =>
        have ha := Ack_known s g keys ig hl
        have hl2 : lookupA (Ack s g keys) g = some
            { ig with
              items := keys.foldl (fun m k => eraseA m k) ig.items
              attempts := keys.foldl (fun a k => upd a k 0) ig.attempts } := by
          rw [ha]
          exact lookupA_insertA_self _ _ _
        have hb := Ack_known (Ack s g keys) g keys _ hl2
        rw [hb]
        simp only
        rw [eraseFold_idem, zeroFold_idem, ha, insertA_insertA]
  · intro hnone
    exact Ack_unknown s g keys hnone

/-- Witness for C6 on a concrete state (empty cache, unknown group). -/
theorem ack_idempotent_witness :
    Ack (Ack ([] : EngineState) "g" ["a"]) "g" ["a"] = Ack ([] : EngineState) "g" ["a"]
    ∧ Ack ([] : EngineState) "g" ["a"] = ([] : EngineState) :=
  ⟨(ack_idempotent [] "g" ["a"]).1, (ack_idempotent [] "g" ["a"]).2 rfl⟩

/-! ## Add-overwrite frame property (C7) -/

/-- C7: `Add` of an item whose key already exists in its group's items
map overwrites only that binding: the key's attempt count is untouched
(the whole attempts map is untouched), `lastSent` is unchanged, all
other keys and all other groups are unchanged. -/
theorem add_overwrite (s : EngineState) (it old : SyncItem) (ig : ItemGroup)
    (hg : lookupA s it.group = some ig)
    (_hk : lookupA ig.items it.key = some old) : AddOverwriteSpec s it ig := by
  have hadd : Add s it
      = insertA s it.group { ig with items := insertA ig.items it.key it } := by
    simp [Add, hg]
  refine ⟨{ ig with items := insertA ig.items it.key it }, ?_, rfl, rfl, ?_, ?_, ?_⟩
  · rw [hadd]
    exact lookupA_insertA_self _ _ _
  · exact lookupA_insertA_self _ _ _
  · intro k hkne
    exact lookupA_insertA_ne _ _ _ _ hkne
  · intro g hgne
    rw [hadd]
    exact lookupA_insertA_ne _ _ _ _ hgne

/-- Witness for C7: re-adding key "a" with a new payload. -/
theorem add_overwrite_witness : AddOverwriteSpec sG itemA2 igG :=
  add_overwrite sG itemA2 itemA igG rfl rfl

/-! ## The attempt-count invariant (C3) -/

theorem mem_of_lookupA {α : Type} (l : List (String × α)) (g : String) (v : α)
    (h : lookupA l g = some v) : (g, v) ∈ l := by
  induction l with
  | nil => simp [lookupA] at h
  | cons p rest ih =>
      simp only [lookupA] at h
      split at h
      case isTrue hp =>
        obtain rfl := Option.some.inj h
        have hpe : (g, p.2) = p := by
          rw [← hp]
        rw [hpe]
        exact List.mem_cons_self _ _
      case isFalse hp =>
        exact List.mem_cons_of_mem _ (ih h)

theorem goodGroup_empty (m : Nat) : GoodGroup m emptyGroup := by
  refine ⟨⟨?_, ?_⟩, ?_⟩
  · intro p hp
    simp [emptyGroup] at hp
  · simp [emptyGroup]
  · intro k
    simp [emptyGroup]

theorem goodGroup_add (m : Nat) (ig : ItemGroup) (it : SyncItem) (h : GoodGroup m ig) :
    GoodGroup m { ig with items := insertA ig.items it.key it } := by
  obtain ⟨⟨hc, hnd⟩, hb⟩ := h
  refine ⟨⟨?_, nodup_keys_insertA _ _ _ hnd⟩, hb⟩
  intro q hq
  rcases mem_insertA _ _ _ q hq with rfl | hq'
  · rfl
  · exact hc q hq'

theorem Add_eq (s : EngineState) (it : SyncItem) :
    Add s it = insertA s it.group
      { (lookupA s it.group).getD emptyGroup with
        items := insertA ((lookupA s it.group).getD emptyGroup).items it.key it } := rfl

theorem goodState_add (cfg : Config) (s : EngineState) (it : SyncItem)
    (h : GoodState cfg s) : GoodState cfg (Add s it) := by
  have hig : GoodGroup cfg.maxRetry ((lookupA s it.group).getD emptyGroup) := by
    cases hl : lookupA s it.group with
    | none => exact goodGroup_empty cfg.maxRetry
    | some ig => exact h (it.group, ig) (mem_of_lookupA s it.group ig hl)
  intro p hp
  rw [Add_eq] at hp
  rcases mem_insertA _ _ _ p hp with rfl | hp'
  · exact goodGroup_add cfg.maxRetry _ it hig
  · exact h p hp'

theorem goodState_ack (cfg : Config) (s : EngineState) (g : String) (keys : List String)
    (h : GoodState cfg s) : GoodState cfg (Ack s g keys) := by
  cases hl : lookupA s g with
  | none =>
      rw [Ack_unknown s g keys hl]
      exact h
  | some ig =>
      rw [Ack_known s g keys ig hl]
      intro p hp
      rcases mem_insertA _ _ _ p hp with rfl | hp'
      · obtain ⟨⟨hc, hnd⟩, hb⟩ := h (g, ig) (mem_of_lookupA s g ig hl)
        refine ⟨⟨?_, ?_⟩, ?_⟩
        · intro q hq
          have hq' : q ∈ keys.foldl (fun m k => eraseA m k) ig.items := hq
          rw [eraseFold_eq_filter] at hq'
          exact hc q (List.mem_filter.mp hq').1
        · show ((keys.foldl (fun m k => eraseA m k) ig.items).map Prod.fst).Nodup
          rw [eraseFold_eq_filter]
          exact List.Nodup.sublist (List.Sublist.map _ (List.filter_sublist _)) hnd
        · intro k
          show (keys.foldl (fun a k => upd a k 0) ig.attempts) k ≤ max 1 cfg.maxRetry
          rw [zeroFold_apply]
          by_cases hk : k ∈ keys
          · rw [if_pos hk]
            exact Nat.zero_le _
          · rw [if_neg hk]
            exact hb k
      · exact h p hp'

theorem dispatchTickGroup_good (cfg : Config) (now : Int) (ig : ItemGroup)
    (h : GoodGroup cfg.maxRetry ig) :
    GoodGroup cfg.maxRetry (dispatchTickGroup cfg now ig).1 := by
  obtain ⟨hok, hb⟩ := h
  by_cases hcond : 0 < (unsentOf ig).length ∧
      (cfg.batchSize ≤ (unsentOf ig).length ∨ cfg.flushAfterNs < now - ig.lastSent)
  · have hres : (dispatchTickGroup cfg now ig).1 = { ig with
        attempts := ((unsentOf ig).take (min cfg.batchSize (unsentOf ig).length)).foldl
          (fun a b => upd a b.key (a b.key + 1)) ig.attempts
        lastSent := now } := by
      simp only [dispatchTickGroup]
      rw [if_pos hcond]
    rw [hres]
    refine ⟨⟨hok.1, hok.2⟩, ?_⟩
    intro k
    show (((unsentOf ig).take (min cfg.batchSize (unsentOf ig).length)).foldl
        (fun a b => upd a b.key (a b.key + 1)) ig.attempts) k ≤ max 1 cfg.maxRetry
    rw [bumpFold_apply]
    have hknd : (((unsentOf ig).take (min cfg.batchSize (unsentOf ig).length)).map
        SyncItem.key).Nodup := by
      rw [List.map_take]
      exact List.Nodup.sublist (List.take_sublist _ _) (unsent_keys_nodup ig hok)
    by_cases hk : k ∈ ((unsentOf ig).take (min cfg.batchSize (unsentOf ig).length)).map
        SyncItem.key
    · rw [List.count_eq_one_of_mem hknd hk]
      obtain ⟨it, hit, rfl⟩ := List.mem_map.mp hk
      rw [attempts_zero_of_mem_unsent ig hok.1 it (List.take_subset _ _ hit)]
      omega
    · rw [List.count_eq_zero_of_not_mem hk, Nat.add_zero]
      exact hb k
  · have hres : (dispatchTickGroup cfg now ig).1 = ig := by
      simp only [dispatchTickGroup]
      rw [if_neg hcond]
    rw [hres]
    exact ⟨hok, hb⟩

theorem retryTickGroup_good (cfg : Config) (now : Int) (ig : ItemGroup)
    (h : GoodGroup cfg.maxRetry ig) :
    GoodGroup cfg.maxRetry (retryTickGroup cfg now ig).1 := by
  by_cases h1 : ig.items.length = 0
  · simp only [retryTickGroup]
    rw [if_pos h1]
    exact h
  by_cases h2 : ig.lastSent = 0
  · simp only [retryTickGroup]
    rw [if_neg h1, if_pos h2]
    exact h
  by_cases h3 : now - ig.lastSent < cfg.retryAfterNs
  · simp only [retryTickGroup]
    rw [if_neg h1, if_neg h2, if_pos h3]
    exact h
  by_cases h4 : 0 < (ig.items.foldl (retryStep cfg.maxRetry) (ig.attempts, [])).2.length
  · have hres : (retryTickGroup cfg now ig).1 = { ig with
        attempts := (ig.items.foldl (retryStep cfg.maxRetry) (ig.attempts, [])).1
        lastSent := now } := by
      simp only [retryTickGroup]
      rw [if_neg h1, if_neg h2, if_neg h3, if_pos h4]
    rw [hres]
    exact ⟨⟨h.1.1, h.1.2⟩, retryFold_bound cfg.maxRetry ig.items ig.attempts [] h.2⟩
  · have hres : (retryTickGroup cfg now ig).1 = ig := by
      simp only [retryTickGroup]
      rw [if_neg h1, if_neg h2, if_neg h3, if_neg h4]
    rw [hres]
    exact h

theorem goodState_dispatchTick (cfg : Config) (now : Int) (s : EngineState)
    (h : GoodState cfg s) : GoodState cfg (dispatchTick cfg now s) := by
  intro p hp
  obtain ⟨q, hq, rfl⟩ := List.mem_map.mp hp
  exact dispatchTickGroup_good cfg now q.2 (h q hq)

theorem goodState_retryTick (cfg : Config) (now : Int) (s : EngineState)
    (h : GoodState cfg s) : GoodState cfg (retryTick cfg now s) := by
  intro p hp
  obtain ⟨q, hq, rfl⟩ := List.mem_map.mp hp
  exact retryTickGroup_good cfg now q.2 (h q hq)

theorem goodState_step (cfg : Config) (s s' : EngineState) (h : GoodState cfg s)
    (hstep : EngineStep cfg s s') : GoodState cfg s' := by
  cases hstep with
  | add it => exact goodState_add cfg s it h
  | ack g keys => exact goodState_ack cfg s g keys h
  | dispatch now => exact goodState_dispatchTick cfg now s h
  | retry now => exact goodState_retryTick cfg now s h

theorem goodState_reachable (cfg : Config) (s : EngineState) (h : Reachable cfg s) :
    GoodState cfg s := by
  induction h with
  | refl =>
      intro p hp
      simp at hp
  | tail _ hstep ih => exact goodState_step cfg _ _ ih hstep

theorem dispatchTickGroup_mono (cfg : Config) (now : Int) (ig : ItemGroup) (k : String) :
    ig.attempts k ≤ (dispatchTickGroup cfg now ig).1.attempts k := by
  by_cases hcond : 0 < (unsentOf ig).length ∧
      (cfg.batchSize ≤ (unsentOf ig).length ∨ cfg.flushAfterNs < now - ig.lastSent)
  · have hres : (dispatchTickGroup cfg now ig).1.attempts k
        = (((unsentOf ig).take (min cfg.batchSize (unsentOf ig).length)).foldl
            (fun a b => upd a b.key (a b.key + 1)) ig.attempts) k := by
      simp only [dispatchTickGroup]
      rw [if_pos hcond]
    rw [hres, bumpFold_apply]
    exact Nat.le_add_right _ _
  · have hres : (dispatchTickGroup cfg now ig).1 = ig := by
      simp only [dispatchTickGroup]
      rw [if_neg hcond]
    rw [hres]

theorem retryTickGroup_mono (cfg : Config) (now : Int) (ig : ItemGroup) (k : String) :
    ig.attempts k ≤ (retryTickGroup cfg now ig).1.attempts k := by
  by_cases h1 : ig.items.length = 0
  · simp only [retryTickGroup]
    rw [if_pos h1]
  by_cases h2 : ig.lastSent = 0
  · simp only [retryTickGroup]
    rw [if_neg h1, if_pos h2]
  by_cases h3 : now - ig.lastSent < cfg.retryAfterNs
  · simp only [retryTickGroup]
    rw [if_neg h1, if_neg h2, if_pos h3]
  by_cases h4 : 0 < (ig.items.foldl (retryStep cfg.maxRetry) (ig.attempts, [])).2.length
  · have hres : (retryTickGroup cfg now ig).1.attempts k
        = (ig.items.foldl (retryStep cfg.maxRetry) (ig.attempts, [])).1 k := by
      simp only [retryTickGroup]
      rw [if_neg h1, if_neg h2, if_neg h3, if_pos h4]
    rw [hres]
    exact retryFold_mono cfg.maxRetry ig.items ig.attempts [] k
  · have hres : (retryTickGroup cfg now ig).1 = ig := by
      simp only [retryTickGroup]
      rw [if_neg h1, if_neg h2, if_neg h3, if_neg h4]
    rw [hres]

theorem attempts_mono_step (cfg : Config) (s s' : EngineState) (hstep : EngineStep cfg s s') :
    ∀ g ig ig' k, lookupA s g = some ig → lookupA s' g = some ig' →
      k ∈ ig.items.map Prod.fst → k ∈ ig'.items.map Prod.fst →
      ig.attempts k ≤ ig'.attempts k := by
  cases hstep with
  | add it =>
      intro g ig ig' k hg hg' _ _
      by_cases hgr : g = it.group
      · subst hgr
        rw [Add_eq, lookupA_insertA_self] at hg'
        obtain rfl := Option.some.inj hg'
        show ig.attempts k ≤ ((lookupA s it.group).getD emptyGroup).attempts k
        rw [hg, Option.getD_some]
      · rw [Add_eq, lookupA_insertA_ne _ _ _ _ hgr, hg] at hg'
        obtain rfl := Option.some.inj hg'
        exact le_refl _
  | ack g₀ keys =>
      intro g ig ig' k hg hg' _ hk'
      cases hl : lookupA s g₀ with
      | none =>
          rw [Ack_unknown s g₀ keys hl, hg] at hg'
          obtain rfl := Option.some.inj hg'
          exact le_refl _
      | some ig₀ =>
          rw [Ack_known s g₀ keys ig₀ hl] at hg'
          by_cases hgr : g = g₀
          · subst hgr
            rw [lookupA_insertA_self] at hg'
            obtain rfl := Option.some.inj hg'
            rw [hg] at hl
            obtain rfl := Option.some.inj hl
            have hk'' : k ∈ ((keys.foldl (fun m k => eraseA m k) ig.items).map Prod.fst) := hk'
            rw [eraseFold_eq_filter] at hk''
            obtain ⟨q, hq, rfl⟩ := List.mem_map.mp hk''
            have hqk : q.1 ∉ keys := by
              simpa using (List.mem_filter.mp hq).2
            show ig.attempts q.1 ≤ (keys.foldl (fun a k => upd a k 0) ig.attempts) q.1
            rw [zeroFold_apply, if_neg hqk]
          · rw [lookupA_insertA_ne _ _ _ _ hgr, hg] at hg'
            obtain rfl := Option.some.inj hg'
            exact le_refl _
  | dispatch now =>
      intro g ig ig' k hg hg' _ _
      have hlook : lookupA (dispatchTick cfg now s) g
          = (lookupA s g).map (fun x => (dispatchTickGroup cfg now x).1) :=
        lookupA_map (fun x => (dispatchTickGroup cfg now x).1) s g
      rw [hlook, hg, Option.map_some'] at hg'
      obtain rfl := Option.some.inj hg'
      exact dispatchTickGroup_mono cfg now ig k
  | retry now =>
      intro g ig ig' k hg hg' _ _
      have hlook : lookupA (retryTick cfg now s) g
          = (lookupA s g).map (fun x => (retryTickGroup cfg now x).1) :=
        lookupA_map (fun x => (retryTickGroup cfg now x).1) s g
      rw [hlook, hg, Option.map_some'] at hg'
      obtain rfl := Option.some.inj hg'
      exact retryTickGroup_mono cfg now ig k

theorem retry_selects_below_max (cfg : Config) (now : Int) (ig : ItemGroup)
    (hok : KeysOk ig) (batch : List SyncItem)
    (hb : (retryTickGroup cfg now ig).2 = some batch) :
    ∀ it ∈ batch, ig.attempts it.key < cfg.maxRetry := by
  intro it hit
  by_cases h1 : ig.items = []
  · rw [retryTickGroup_skip cfg now ig (Or.inl h1)] at hb
    simp at hb
  by_cases h2 : ig.lastSent = 0
  · rw [retryTickGroup_skip cfg now ig (Or.inr (Or.inl h2))] at hb
    simp at hb
  by_cases h3 : now - ig.lastSent < cfg.retryAfterNs
  · rw [retryTickGroup_skip cfg now ig (Or.inr (Or.inr h3))] at hb
    simp at hb
  obtain ⟨hempty, hrun⟩ := retryTickGroup_run cfg now ig hok.2 h1 h2 (not_lt.mp h3)
  by_cases hre : retryablesOf cfg ig = []
  · rw [hempty hre] at hb
    simp at hb
  obtain ⟨hsome, _, _, _⟩ := hrun hre
  rw [hsome] at hb
  obtain rfl := Option.some.inj hb
  obtain ⟨q, hq, rfl⟩ := List.mem_map.mp hit
  have hless := (List.mem_filter.mp hq).2
  rw [hok.1 q (List.mem_filter.mp hq).1]
  simpa using hless

/-- C3 (amended): in every reachable state, stored attempt counts are
monotone while a key is present, never re-selected for retry once at
`MaxRetry`, and bounded by `max 1 MaxRetry` — not by `MaxRetry` itself:
with `MaxRetry = 0` a first dispatch still bumps an unsent item to 1. -/
theorem attempts_invariant (cfg : Config) (s : EngineState) (h : Reachable cfg s) :
    AttemptsInvariant cfg s := by
  have hg := goodState_reachable cfg s h
  refine ⟨fun p hp k => (hg p hp).2 k, ?_, ?_⟩
  · intro s' hstep
    exact attempts_mono_step cfg s s' hstep
  · intro p hp now batch hb
    exact retry_selects_below_max cfg now p.2 (hg p hp).1 batch hb

/-- C3 counterexample: with `MaxRetry = 0`, adding one item and letting
one dispatch tick run yields a reachable state in which the item's
stored attempt count is 1 > MaxRetry — the claimed bound `MaxRetry`
is exceeded (the dispatch loop bumps unsent items unconditionally). -/
theorem attempts_exceed_maxretry :
    Reachable cfgZ (dispatchTick cfgZ 1 (Add ([] : EngineState) itemA))
    ∧ cfgZ.maxRetry = 0
    ∧ ((lookupA (dispatchTick cfgZ 1 (Add ([] : EngineState) itemA)) "g").getD
        emptyGroup).attempts "a" = 1 :=
  ⟨Relation.ReflTransGen.tail
      (Relation.ReflTransGen.single (EngineStep.add [] itemA))
      (EngineStep.dispatch _ 1),
    by decide, by decide⟩

/-- Witness for C3's amended theorem: the invariant at the reachable
state holding one freshly added item. -/
theorem attempts_invariant_witness : AttemptsInvariant cfgA (Add ([] : EngineState) itemA) :=
  attempts_invariant cfgA _ (Relation.ReflTransGen.single (EngineStep.add [] itemA))

/-! ## The submitted dispatch task (C4, C5) -/

/-- C5: with a configured (non-nil) logger, every synchronous panic in
the dispatch callback — including the nil-`OnDispatch` case — is caught
at the submitted-task boundary, logged and swallowed: the task always
terminates normally, so nothing propagates to the control loops or to
other groups' tasks. -/
theorem callback_panic_isolated (cb : Option Bool) :
    runSubmittedTask (some ()) cb = Except.ok () := by
  cases cb with
  | none => rfl
  | some b => cases b <;> rfl

/-- C4 exhibit: the engine does not guard its logger invocations.  With
`Config.Logger = nil` and a perfectly healthy dispatch callback, the
submitted task panics on its first `e.cfg.Logger(...)` call, and the
recover handler's own logging call re-panics, so the panic escapes the
task: the absent logger is fatal, contrary to the guard the spec
requires. -/
theorem nil_logger_panics :
    runSubmittedTask none (some false) = Except.error "nil logger call" := rfl

/-! ## Stop (C10) -/

/-- C10: the first `Stop` on a fresh engine succeeds and closes the stop
channel; a second `Stop` on any engine whose `Stop` succeeded panics
with Go's "close of closed channel" — `Stop` is safe at most once. -/
theorem stop_twice_panics :
    Stop NewEngineCtl = Except.ok { stopClosed := true }
    ∧ (∀ e e' : EngineCtl, Stop e = Except.ok e'
        → Stop e' = Except.error "close of closed channel") := by
  constructor
  · rfl
  · intro e e' h
    cases e with
    | mk c =>
        cases c with
        | false =>
            simp only [Stop, closeChan, Bool.false_eq_true, if_false,
              Except.map, Except.ok.injEq] at h
            rw [← h]
            rfl
        | true =>
            simp [Stop, closeChan, Except.map] at h

/-- Witness for C10: running `Stop` on the closed-channel state the
first `Stop` produces. -/
theorem stop_twice_panics_witness :
    Stop { stopClosed := true } = Except.error "close of closed channel" :=
  stop_twice_panics.2 NewEngineCtl { stopClosed := true } rfl

end SyncEngine
